import Mathlib

/-!
Shallow embedding of the transform pipeline of `src/Untitled2.py`
(retail product analytics script).

Modelling conventions:
* a dataframe cell holds either a missing value (pandas `NaN`), a string, or a
  nonnegative integer (`Cell`);
* pandas float values are modelled by `ℚ`; a whole-column float value that may
  be `NaN` is `Option ℚ` (`none` = `NaN`/missing); the one computation that can
  produce infinities (the discount-ratio division, line 144) goes through the
  four-point type `PFloat` so that `np.isfinite` filtering (line 145) can be
  stated;
* `pd.to_numeric`/Python `float` parsing is modelled for the unsigned decimal
  strings that occur in this pipeline (the regex `[0-9.]+` can only produce
  digit/dot runs);
* fallible column operations return `Except String`, mirroring raised
  exceptions (`ValueError` from `.astype(float)`, `AttributeError` from the
  `.strip()` call on a Series at line 120).
-/

/-- The character class of the regex `[0-9.]`, digit part: `0`–`9` (codepoints
48–57), as used by `str.extract(r"([0-9.]+)")` at lines 104 and 115. -/
def isDigitB (c : Char) : Bool := 48 ≤ c.toNat && c.toNat ≤ 57

/-- The dot `.` (codepoint 46) of the regex class `[0-9.]`. -/
def isDotB (c : Char) : Bool := c.toNat == 46

/-- The comma (codepoint 44) removed by `.str.replace(",", "")` at line 103. -/
def isCommaB (c : Char) : Bool := c.toNat == 44

/-- A character matched by the regex class `[0-9.]`. -/
def isNumChar (c : Char) : Bool := isDigitB c || isDotB c

/-- Numeric value of a digit character. -/
def digitVal (c : Char) : ℕ := c.toNat - 48

/-- Value of a digit string read left to right (base 10). -/
def digitsVal (l : List Char) : ℕ := l.foldl (fun a c => 10 * a + digitVal c) 0

/-- The decimal digit character for `d < 10` (used to model Python `str` of an
integer cell). -/
def digitChar (d : ℕ) : Char :=
  ['0', '1', '2', '3', '4', '5', '6', '7', '8', '9'].getD d '9'

/-- Decimal digit list of a natural number, most significant first: the
rendering Python `str()` gives an integer cell. -/
def renderDigits (n : ℕ) : List Char :=
  if _h : n < 10 then [digitChar n]
  else renderDigits (n / 10) ++ [digitChar (n % 10)]
decreasing_by exact Nat.div_lt_self (by omega) (by omega)

/-- A raw dataframe cell: missing (`NaN`), a string, or an integer. -/
inductive Cell where
  | na : Cell
  | str : String → Cell
  | num : ℕ → Cell
deriving DecidableEq

/-- `Series.astype(str)` on one cell: `NaN` becomes the literal string
`"nan"`, integers are rendered in decimal, strings pass through. -/
def astypeStr : Cell → String
  | Cell.na => "nan"
  | Cell.str s => s
  | Cell.num n => String.mk (renderDigits n)

/-- `.str.replace(",", "", regex=False)` (line 103): delete every comma. -/
def stripCommas (s : String) : String :=
  String.mk (s.data.filter (fun c => !(isCommaB c)))

/-- Core scan of `str.extract(r"([0-9.]+)")`: the first maximal run of
characters in the class `[0-9.]`, or `none` when no such character occurs. -/
def extractRunL : List Char → Option (List Char)
  | [] => none
  | c :: cs => if isNumChar c then some (c :: cs.takeWhile isNumChar) else extractRunL cs

/-- `str.extract(r"([0-9.]+)")` on one cell value (lines 104 and 115). -/
def extractFirstRun (s : String) : Option String :=
  (extractRunL s.data).map String.mk

/-- Digits of Python `float` / `pd.to_numeric` parsing, restricted to the
unsigned decimal strings arising in this pipeline: valid iff the string splits
as (digits, optional dot, digits) with at least one digit; `"1.2.3"` and `"."`
are invalid.  Returns the digit value with the fraction appended, paired with
the number of fractional digits, so `"3.5"` gives `(35, 1)` meaning 35/10. -/
def parseParts? (s : String) : Option (ℕ × ℕ) :=
  let l := s.data
  let ip := l.takeWhile (fun c => !(isDotB c))
  let rest := l.dropWhile (fun c => !(isDotB c))
  match rest with
  | [] => if l ≠ [] ∧ l.all isDigitB then some (digitsVal l, 0) else none
  | _ :: fp =>
      if (ip.all isDigitB ∧ fp.all isDigitB) ∧ (ip ≠ [] ∨ fp ≠ []) then
        some (digitsVal ip * 10 ^ fp.length + digitsVal fp, fp.length)
      else none

/-- Python `float` / `pd.to_numeric` parsing of an unsigned decimal string,
as a rational: the integer-and-fraction digit value divided by the power of
ten given by the number of fractional digits. -/
def parseDecimal? (s : String) : Option ℚ :=
  (parseParts? s).map (fun p => (p.1 : ℚ) / (10 : ℚ) ^ p.2)

/-- Lines 100–106: `MRP_clean` for one cell — `astype(str)`, drop commas,
extract the first `[0-9.]+` run, then `pd.to_numeric(..., errors="coerce")`
(a failed parse coerces to `NaN`, i.e. `none`). -/
def mrpCleanCell (c : Cell) : Option ℚ :=
  (extractFirstRun (stripCommas (astypeStr c))).bind parseDecimal?

/-- Line 109: `pd.to_numeric(products["SellPrice"], errors="coerce")` on one
cell. -/
def toNumericCell : Cell → Option ℚ
  | Cell.na => none
  | Cell.str s => parseDecimal? s
  | Cell.num n => some n

/-- Lines 112–117: `Discount_pct` for one cell — `astype(str)`, extract the
first `[0-9.]+` run (no comma removal), then `.astype(float)`.  A cell with no
run is `NaN` and `float(NaN)` is `NaN`; but a matched run that is not a valid
float makes `.astype(float)` raise `ValueError`, modelled as `Except.error`. -/
def discountPctCell (c : Cell) : Except String (Option ℚ) :=
  match extractFirstRun (astypeStr c) with
  | none => Except.ok none
  | some r =>
      match parseDecimal? r with
      | some q => Except.ok (some q)
      | none => Except.error ("could not convert string to float: " ++ r)

/-- One raw input record with the seven required columns of the source CSV
(Product ID, Category, BrandName, MRP, SellPrice, Discount, Currancy) plus
the values of any additional pass-through columns. -/
structure RawRow where
  productId : Cell
  category : Cell
  brandName : Cell
  mrp : Cell
  sellPrice : Cell
  discount : Cell
  currancy : Cell
  extras : List Cell
deriving DecidableEq

/-- The raw input table: names of the additional columns plus the records. -/
structure RawTable where
  extraNames : List String
  rows : List RawRow
deriving DecidableEq

/-- The columns produced by the cleaning/standardization stage
(script section 3, lines 97–120). -/
structure CleanedCols where
  mrp : List (Option ℚ)
  sellPrice : List (Option ℚ)
  discountPct : List (Option ℚ)
  currancy : List String
deriving DecidableEq

/-- Line 120: `products["Currancy"].astype(str).strip()`.  A pandas `Series`
has no `strip` method (the elementwise form is `.str.strip()`), so attribute
lookup fails and this statement raises `AttributeError` for every input. -/
def seriesStrip (_col : List String) : Except String (List String) :=
  Except.error "AttributeError: Series object has no attribute strip"

/-- Script section 3 (lines 97–120): clean MRP, coerce SellPrice, extract the
discount percentage (which raises on a non-float run), then the currency
statement of line 120. -/
def cleanCols (t : RawTable) : Except String CleanedCols :=
  let mrpCol := t.rows.map (fun r => mrpCleanCell r.mrp)
  let spCol := t.rows.map (fun r => toNumericCell r.sellPrice)
  match t.rows.mapM (fun r => discountPctCell r.discount) with
  | Except.error e => Except.error e
  | Except.ok dpCol =>
      match seriesStrip (t.rows.map (fun r => astypeStr r.currancy)) with
      | Except.error e => Except.error e
      | Except.ok curCol =>
          Except.ok { mrp := mrpCol, sellPrice := spCol, discountPct := dpCol, currancy := curCol }

/-- A concrete one-row input table holding every required column with
well-formed values. -/
def sampleRaw : RawTable :=
  { extraNames := [],
    rows := [{ productId := Cell.str "P1", category := Cell.str "Electronics",
               brandName := Cell.str "Acme", mrp := Cell.str "3,900",
               sellPrice := Cell.str "3500", discount := Cell.str "10% off",
               currancy := Cell.str " INR", extras := [] }] }

/-- A pandas float cell as it can appear during the ratio computation:
a finite value, `NaN`, `+inf` or `-inf`. -/
inductive PFloat where
  | val : ℚ → PFloat
  | nan : PFloat
  | inf : PFloat
  | ninf : PFloat
deriving DecidableEq

/-- Line 141: `Discount_value = MRP_clean - SellPrice`; `NaN` propagates. -/
def discountValue (mrp sp : Option ℚ) : Option ℚ :=
  match mrp, sp with
  | some a, some b => some (a - b)
  | _, _ => none

/-- Line 144: `Discount_ratio = Discount_value / MRP_clean` with IEEE
division semantics: any `NaN` operand gives `NaN`; division of a nonzero
value by zero gives a signed infinity; `0/0` gives `NaN`. -/
def ratioRaw (dv mrp : Option ℚ) : PFloat :=
  match dv, mrp with
  | some a, some b =>
      if b = 0 then (if a = 0 then PFloat.nan else if 0 < a then PFloat.inf else PFloat.ninf)
      else PFloat.val (a / b)
  | _, _ => PFloat.nan

/-- Line 145: `products.loc[~np.isfinite(ratio), "Discount_ratio"] = np.nan`
— every non-finite entry of the ratio column is replaced by `NaN`. -/
def normalizeFinite : PFloat → PFloat
  | PFloat.val q => PFloat.val q
  | _ => PFloat.nan

/-- The `Discount_ratio` value persisted in the table for one row
(line 144 followed by line 145). -/
def discountRatioPersisted (dv mrp : Option ℚ) : PFloat :=
  normalizeFinite (ratioRaw dv mrp)

/-- A persisted `PFloat` as an optional rational (`NaN` = missing). -/
def pfloatToOption : PFloat → Option ℚ
  | PFloat.val q => some q
  | _ => none

/-- `Series.quantile(0.75)` with the default linear interpolation, over an
already `NaN`-free value list: sort ascending, take position
`h = 0.75 * (n - 1)`, and interpolate linearly between the neighbouring
order statistics; `NaN` (here `none`) on an empty list. -/
def quantile75 (xs : List ℚ) : Option ℚ :=
  match xs.insertionSort (· ≤ ·) with
  | [] => none
  | y :: ys =>
      let s := y :: ys
      let n := s.length
      let j := 3 * (n - 1) / 4
      let f : ℚ := ((3 * (n - 1) % 4 : ℕ) : ℚ) / 4
      let a := s.getD j 0
      let b := s.getD (j + 1) a
      some (a + f * (b - a))

/-- Line 151: the premium cutoff — the 75th percentile of `MRP_clean`,
which pandas computes over the non-`NaN` values only. -/
def premiumCutoff (col : List (Option ℚ)) : Option ℚ :=
  quantile75 (col.filterMap id)

/-- Line 152, one cell: `(MRP_clean >= premium_cutoff).astype(int)` — a
comparison with a `NaN` on either side is `False`, so the flag is `1`
exactly when both values exist and the comparison holds. -/
def premiumFlag (cutoff m : Option ℚ) : ℕ :=
  match cutoff, m with
  | some c, some x => if c ≤ x then 1 else 0
  | _, _ => 0

/-- Line 152, whole column: the `Is_premium` column derived from the
`MRP_clean` column. -/
def isPremiumCol (col : List (Option ℚ)) : List ℕ :=
  col.map (premiumFlag (premiumCutoff col))

/-- One row of the feature-engineered `products` table (sections 3 and 4),
with the identifier columns and every derived column. -/
structure CleanRow where
  productId : Option String
  category : Option String
  brandName : Option String
  mrpClean : Option ℚ
  sellPrice : Option ℚ
  discountPct : Option ℚ
  discountValue : Option ℚ
  discountRatio : Option ℚ
  revenue : Option ℚ
  isPremium : ℕ
deriving DecidableEq

/-- An identifier cell as an optional string (`NaN` = missing). -/
def cellStr? : Cell → Option String
  | Cell.na => none
  | Cell.str s => some s
  | Cell.num n => some (String.mk (renderDigits n))

/-- Rows of one category group: `groupby("Category")` keeps, under key `k`,
exactly the rows whose `Category` equals `k`; rows with a missing `Category`
belong to no group (pandas `groupby` default `dropna=True`). -/
def groupRows (rows : List CleanRow) (k : String) : List CleanRow :=
  rows.filter (fun r => r.category == some k)

/-- pandas `mean` aggregation: missing values are excluded from numerator and
denominator; a group whose values are all missing yields a missing mean. -/
def meanOpt (l : List (Option ℚ)) : Option ℚ :=
  let v := l.filterMap id
  if v.length = 0 then none else some (v.sum / (v.length : ℚ))

/-- One row of the category summary `category_agg` (lines 173–184). -/
structure AggRow where
  category : String
  products : ℕ
  totalRevenue : ℚ
  avgMRP : Option ℚ
  avgSellPrice : Option ℚ
  avgDiscountPct : Option ℚ
  premiumShare : Option ℚ
deriving DecidableEq

/-- The aggregate record for one category key (the `.agg(...)` of lines
175–182): distinct-count of product ids, skip-missing sum of `Revenue`
(an all-missing group sums to 0), and skip-missing means. -/
def mkAggRow (rows : List CleanRow) (k : String) : AggRow :=
  let g := groupRows rows k
  { category := k,
    products := ((g.filterMap (fun r => r.productId)).dedup).length,
    totalRevenue := ((g.filterMap (fun r => r.revenue))).sum,
    avgMRP := meanOpt (g.map (fun r => r.mrpClean)),
    avgSellPrice := meanOpt (g.map (fun r => r.sellPrice)),
    avgDiscountPct := meanOpt (g.map (fun r => r.discountPct)),
    premiumShare := meanOpt (g.map (fun r => some ((r.isPremium : ℕ) : ℚ))) }

/-- The distinct non-missing `Category` values of the table — the group keys
of `groupby("Category")`. -/
def catKeys (rows : List CleanRow) : List String :=
  (rows.filterMap (fun r => r.category)).dedup

/-- Lines 173–184: the category summary table — one aggregate row per group
key, sorted by `Total_Revenue` descending (`sort_values(..., ascending=False)`;
the tie order among equal revenues is not specified by the source). -/
def categoryAgg (rows : List CleanRow) : List AggRow :=
  ((catKeys rows).map (mkAggRow rows)).insertionSort
    (fun a b => b.totalRevenue ≤ a.totalRevenue)

/-- Helper of `idxmax`: the label of the first maximum so far, scanning the
remaining entries; a strictly greater value replaces the current best, so
ties keep the earliest label. -/
def idxmaxGo (bk : String) (bv : ℚ) : List (String × Option ℚ) → String
  | [] => bk
  | (_, none) :: rest => idxmaxGo bk bv rest
  | (k, some v) :: rest => if bv < v then idxmaxGo k v rest else idxmaxGo bk bv rest

/-- pandas `Series.idxmax` over (label, value) pairs in table order: skips
missing values, raises `ValueError` when no value remains, and returns the
label of the first occurrence of the maximum. -/
def idxmax : List (String × Option ℚ) → Except String String
  | [] => Except.error "attempt to get argmax of an empty sequence"
  | (_, none) :: rest => idxmax rest
  | (k, some v) :: rest => Except.ok (idxmaxGo k v rest)

/-- Line 281: `category_agg["Avg_Discount_pct"].idxmax()`. -/
def highestDiscountCategory (agg : List AggRow) : Except String String :=
  idxmax (agg.map (fun a => (a.category, a.avgDiscountPct)))

/-- Line 285: `category_agg["Premium_share"].idxmax()`. -/
def premiumCategory (agg : List AggRow) : Except String String :=
  idxmax (agg.map (fun a => (a.category, a.premiumShare)))

/-- Line 289: `category_agg["Total_Revenue"].idxmax()`. -/
def topRevenueCategory (agg : List AggRow) : Except String String :=
  idxmax (agg.map (fun a => (a.category, some a.totalRevenue)))

/-- The feature-engineering of one row (script section 4) given the
dataset-wide premium cutoff and the row's extracted discount percentage. -/
def deriveRow (cutoff : Option ℚ) (r : RawRow) (dp : Option ℚ) : CleanRow :=
  let mrp := mrpCleanCell r.mrp
  let sp := toNumericCell r.sellPrice
  let dv := discountValue mrp sp
  { productId := cellStr? r.productId,
    category := cellStr? r.category,
    brandName := cellStr? r.brandName,
    mrpClean := mrp,
    sellPrice := sp,
    discountPct := dp,
    discountValue := dv,
    discountRatio := pfloatToOption (discountRatioPersisted dv mrp),
    revenue := sp,
    isPremium := premiumFlag cutoff mrp }

/-- The names of the seven required input columns, in schema order. -/
def requiredNames : List String :=
  ["Product ID", "Category", "BrandName", "MRP", "SellPrice", "Discount", "Currancy"]

/-- The six derived columns, in the order the script appends them. -/
def derivedNames : List String :=
  ["MRP_clean", "Discount_pct", "Discount_value", "Discount_ratio", "Revenue", "Is_premium"]

/-- The file written by `products.to_csv(output_path, index=False)`
(lines 303–304): a header row naming every column, the data rows, the
pass-through values of the additional columns, and no row-index column. -/
structure ExportFile where
  header : List String
  rows : List CleanRow
  extraData : List (List Cell)
  hasIndexColumn : Bool
deriving DecidableEq

/-- The whole run as far as it affects the exported file: load (the table is
given), clean (section 3), derive (section 4), export (section 8).  The
cleaning stage decides whether anything is produced at all. -/
def runPipeline (t : RawTable) : Except String ExportFile :=
  match cleanCols t with
  | Except.error e => Except.error e
  | Except.ok cc =>
      let cutoff := premiumCutoff cc.mrp
      let rows := (t.rows.zip cc.discountPct).map (fun p => deriveRow cutoff p.1 p.2)
      Except.ok { header := requiredNames ++ t.extraNames ++ derivedNames,
                  rows := rows,
                  extraData := t.rows.map (fun r => r.extras),
                  hasIndexColumn := false }

/-- A cleaned product row whose `Category` is missing (the cell was `NaN`),
with ordinary values elsewhere. -/
def cexMissingCatRow : CleanRow :=
  { productId := some "P9", category := none, brandName := some "B",
    mrpClean := some 100, sellPrice := some 90, discountPct := some 10,
    discountValue := some 10, discountRatio := some (1 / 10),
    revenue := some 90, isPremium := 1 }

/-! ### Helper lemmas about the run extractor and digit strings -/

theorem takeWhile_append_of_all {p : Char → Bool} {l t : List Char}
    (h : ∀ c ∈ l, p c = true) : (l ++ t).takeWhile p = l ++ t.takeWhile p := by
  induction l with
  | nil => rfl
  | cons c cs ih =>
      have hc : p c = true := h c (List.mem_cons_self c cs)
      simp only [List.cons_append, List.takeWhile_cons, hc, if_true]
      rw [ih (fun d hd => h d (List.mem_cons_of_mem c hd))]

theorem mem_of_takeWhile {p : Char → Bool} {l : List Char} {c : Char}
    (h : c ∈ l.takeWhile p) : p c = true := by
  induction l with
  | nil => simp [List.takeWhile] at h
  | cons d ds ih =>
      by_cases hd : p d = true
      · rw [List.takeWhile_cons, if_pos hd] at h
        rcases List.mem_cons.mp h with rfl | h2
        · exact hd
        · exact ih h2
      · rw [List.takeWhile_cons, if_neg hd] at h
        simp at h

theorem extractRunL_mem {l r : List Char} (h : extractRunL l = some r) :
    ∀ c ∈ r, isNumChar c = true := by
  induction l with
  | nil => simp [extractRunL] at h
  | cons c cs ih =>
      by_cases hc : isNumChar c = true
      · rw [extractRunL, if_pos hc] at h
        cases h
        intro d hd
        rcases List.mem_cons.mp hd with rfl | h2
        · exact hc
        · exact mem_of_takeWhile h2
      · rw [extractRunL, if_neg hc] at h
        exact ih h

theorem extractRunL_append {as rs bs : List Char}
    (ha : ∀ c ∈ as, isNumChar c = false)
    (hr1 : rs ≠ []) (hr2 : ∀ c ∈ rs, isNumChar c = true)
    (hb : bs.takeWhile isNumChar = []) :
    extractRunL (as ++ rs ++ bs) = some rs := by
  induction as with
  | nil =>
      match rs, hr1 with
      | c :: rest, _ =>
          have hc : isNumChar c = true := hr2 c (List.mem_cons_self c rest)
          rw [List.nil_append, List.cons_append, extractRunL, if_pos hc]
          rw [takeWhile_append_of_all (fun d hd => hr2 d (List.mem_cons_of_mem c hd)), hb,
            List.append_nil]
  | cons a as2 ih =>
      have hcf : isNumChar a = false := ha a (List.mem_cons_self a as2)
      rw [List.cons_append, List.cons_append, extractRunL]
      rw [if_neg (by rw [hcf]; simp)]
      exact ih (fun d hd => ha d (List.mem_cons_of_mem a hd))

theorem extractRunL_all {l : List Char} (h1 : l ≠ []) (h2 : ∀ c ∈ l, isNumChar c = true) :
    extractRunL l = some l := by
  have := @extractRunL_append [] l []
    (by intro c hc; simp at hc) h1 h2 (by rfl)
  simpa using this

theorem extractFirstRun_spec (a r b : String)
    (ha : a.data.all (fun c => !(isNumChar c)) = true)
    (hr1 : r.data ≠ []) (hr2 : r.data.all isNumChar = true)
    (hb : b.data.takeWhile isNumChar = []) :
    extractFirstRun (a ++ r ++ b) = some r := by
  rw [extractFirstRun, String.data_append, String.data_append]
  rw [extractRunL_append
    (by intro c hc; have := List.all_eq_true.mp ha c hc; simpa using this)
    hr1 (List.all_eq_true.mp hr2) hb]
  cases r
  rfl

theorem isNum_of_isDigitB {c : Char} (h : isDigitB c = true) : isNumChar c = true := by
  simp [isNumChar, h]

theorem isDotB_eq_false_of_digit {c : Char} (h : isDigitB c = true) : isDotB c = false := by
  simp [isDigitB, isDotB] at h ⊢
  omega

theorem isCommaB_eq_false_of_digit {c : Char} (h : isDigitB c = true) : isCommaB c = false := by
  simp [isDigitB, isCommaB] at h ⊢
  omega

theorem isDigitB_digitChar (d : ℕ) : isDigitB (digitChar d) = true := by
  rcases Nat.lt_or_ge d 10 with h | h
  · interval_cases d <;> decide
  · rw [digitChar, List.getD_eq_default]
    · decide
    · simpa using h

theorem digitVal_digitChar {d : ℕ} (h : d < 10) : digitVal (digitChar d) = d := by
  interval_cases d <;> decide

theorem renderDigits_all_digit (n : ℕ) : ∀ c ∈ renderDigits n, isDigitB c = true := by
  induction n using Nat.strong_induction_on with
  | _ n ih =>
      rw [renderDigits]
      split
      · intro c hc
        rcases List.mem_singleton.mp hc with rfl
        exact isDigitB_digitChar n
      · intro c hc
        rcases List.mem_append.mp hc with h1 | h2
        · exact ih (n / 10) (Nat.div_lt_self (by omega) (by omega)) c h1
        · rcases List.mem_singleton.mp h2 with rfl
          exact isDigitB_digitChar (n % 10)

theorem renderDigits_ne_nil (n : ℕ) : renderDigits n ≠ [] := by
  rw [renderDigits]
  split <;> simp

theorem digitsVal_append_digit (xs : List Char) (c : Char) :
    digitsVal (xs ++ [c]) = 10 * digitsVal xs + digitVal c := by
  simp [digitsVal, List.foldl_append]

theorem digitsVal_renderDigits (n : ℕ) : digitsVal (renderDigits n) = n := by
  induction n using Nat.strong_induction_on with
  | _ n ih =>
      rw [renderDigits]
      split
      · rename_i h
        simp [digitsVal, digitVal_digitChar h]
      · rename_i h
        rw [digitsVal_append_digit, ih (n / 10) (Nat.div_lt_self (by omega) (by omega)),
          digitVal_digitChar (Nat.mod_lt n (by omega))]
        omega

theorem parseParts?_all_digit {l : List Char} (h1 : l ≠ [])
    (h2 : ∀ c ∈ l, isDigitB c = true) :
    parseParts? (String.mk l) = some (digitsVal l, 0) := by
  have htw : l.takeWhile (fun c => !(isDotB c)) = l :=
    List.takeWhile_eq_self_iff.mpr (fun c hc => by
      simp [isDotB_eq_false_of_digit (h2 c hc)])
  have hdw : l.dropWhile (fun c => !(isDotB c)) = [] :=
    List.dropWhile_eq_nil_iff.mpr (fun c hc => by
      simp [isDotB_eq_false_of_digit (h2 c hc)])
  simp only [parseParts?]
  rw [hdw]
  rw [if_pos ⟨h1, List.all_eq_true.mpr h2⟩]

theorem parseDecimal?_all_digit {l : List Char} (h1 : l ≠ [])
    (h2 : ∀ c ∈ l, isDigitB c = true) :
    parseDecimal? (String.mk l) = some ((digitsVal l : ℕ) : ℚ) := by
  rw [parseDecimal?, parseParts?_all_digit h1 h2]
  simp

theorem mrpCleanCell_num (n : ℕ) : mrpCleanCell (Cell.num n) = some ((n : ℕ) : ℚ) := by
  have hdig := renderDigits_all_digit n
  have hne := renderDigits_ne_nil n
  have hstrip : stripCommas (String.mk (renderDigits n)) = String.mk (renderDigits n) := by
    rw [stripCommas]
    congr 1
    exact List.filter_eq_self.mpr (fun c hc => by
      rw [isCommaB_eq_false_of_digit (hdig c hc)]; rfl)
  have hext : extractFirstRun (String.mk (renderDigits n)) = some (String.mk (renderDigits n)) := by
    rw [extractFirstRun]
    rw [extractRunL_all hne (fun c hc => isNum_of_isDigitB (hdig c hc))]
    rfl
  rw [mrpCleanCell, astypeStr, hstrip, hext, Option.some_bind,
    parseDecimal?_all_digit hne hdig, digitsVal_renderDigits]

/-! ### Claim theorems -/

/-- C4: `MRP_clean` is computed by coercing to text, removing
thousands-separator commas, taking the first maximal `[0-9.]` run and parsing
it as a float; no run or an invalid run gives a missing value; `"3,900"`
yields 3900.0, `"20% off"` yields 20.0, `"N/A"` yields missing, and an
already-numeric (integer) cell passes through unchanged.  The first conjunct
characterizes the extractor on any string that splits as (no numeric
characters) ++ (nonempty numeric run) ++ (text not starting with a numeric
character). -/
theorem spec_C4_mrp_clean :
    (∀ a r b : String,
        a.data.all (fun c => !(isNumChar c)) = true →
        r.data ≠ [] →
        r.data.all isNumChar = true →
        b.data.takeWhile isNumChar = [] →
        extractFirstRun (a ++ r ++ b) = some r)
    ∧ (∀ v : Cell, mrpCleanCell v = (extractFirstRun (stripCommas (astypeStr v))).bind parseDecimal?)
    ∧ mrpCleanCell (Cell.str "3,900") = some 3900
    ∧ mrpCleanCell (Cell.str "20% off") = some 20
    ∧ mrpCleanCell (Cell.str "N/A") = none
    ∧ mrpCleanCell (Cell.str "1.2.3") = none
    ∧ (∀ n : ℕ, mrpCleanCell (Cell.num n) = some (n : ℚ)) := by
  refine ⟨?_, fun v => rfl, ?_, ?_, ?_, ?_, mrpCleanCell_num⟩
  · intro a r b ha hr1 hr2 hb
    exact extractFirstRun_spec a r b ha hr1 hr2 hb
  · simp only [mrpCleanCell, parseDecimal?,
      show extractFirstRun (stripCommas (astypeStr (Cell.str "3,900"))) = some "3900" from by decide,
      show parseParts? "3900" = some (3900, 0) from by decide,
      Option.some_bind, Option.map_some]
    norm_num
  · simp only [mrpCleanCell, parseDecimal?,
      show extractFirstRun (stripCommas (astypeStr (Cell.str "20% off"))) = some "20" from by decide,
      show parseParts? "20" = some (20, 0) from by decide,
      Option.some_bind, Option.map_some]
    norm_num
  · simp only [mrpCleanCell,
      show extractFirstRun (stripCommas (astypeStr (Cell.str "N/A"))) = none from by decide,
      Option.none_bind]
  · simp only [mrpCleanCell, parseDecimal?,
      show extractFirstRun (stripCommas (astypeStr (Cell.str "1.2.3"))) = some "1.2.3" from by decide,
      show parseParts? "1.2.3" = none from by decide,
      Option.some_bind]
    rfl

/-- Witness for C4: the extractor conjunct applied at a concrete split —
`"Rs 3900 only"` has first maximal numeric run `"3900"`. -/
theorem spec_C4_mrp_clean_witness :
    extractFirstRun ("Rs " ++ "3900" ++ " only") = some "3900" :=
  spec_C4_mrp_clean.1 "Rs " "3900" " only" (by decide) (by decide) (by decide) (by decide)

/-- C10: thousands-separator commas are removed only in the MRP pipeline; a
run matched by the discount extraction never contains a comma (a comma is not
in the class `[0-9.]`, so it terminates the run), hence `"1,500"` gives
`MRP_clean` 1500.0 but `Discount_pct` 1.0. -/
theorem spec_C10_comma_only_mrp :
    (∀ s r : String, extractFirstRun s = some r → r.data.all isNumChar = true)
    ∧ (∀ c : Char, isCommaB c = true → isNumChar c = false)
    ∧ mrpCleanCell (Cell.str "1,500") = some 1500
    ∧ discountPctCell (Cell.str "1,500") = Except.ok (some 1) := by
  refine ⟨?_, ?_, ?_, ?_⟩
  · intro s r h
    rw [extractFirstRun] at h
    cases hrl : extractRunL s.data with
    | none => rw [hrl] at h; cases h
    | some rl =>
        rw [hrl] at h
        cases h
        exact List.all_eq_true.mpr (extractRunL_mem hrl)
  · intro c h
    simp [isCommaB] at h
    simp [isNumChar, isDigitB, isDotB, h]
  · simp only [mrpCleanCell, parseDecimal?,
      show extractFirstRun (stripCommas (astypeStr (Cell.str "1,500"))) = some "1500" from by decide,
      show parseParts? "1500" = some (1500, 0) from by decide,
      Option.some_bind, Option.map_some]
    norm_num
  · simp only [discountPctCell, parseDecimal?,
      show extractFirstRun (astypeStr (Cell.str "1,500")) = some "1" from by decide,
      show parseParts? "1" = some (1, 0) from by decide,
      Option.map_some]
    norm_num

/-- Witness for C10: applied to `"1,500"`, whose matched discount run is the
single digit before the comma. -/
theorem spec_C10_comma_only_mrp_witness :
    List.all (String.data "1") isNumChar = true :=
  spec_C10_comma_only_mrp.1 "1,500" "1" (by decide)

/-- C1 counterexample: the claim says a cell whose extracted numeric run is
not a valid float (such as `"1.2.3"` or a lone `"."`) downgrades to a missing
`Discount_pct` and never aborts; in the code `.astype(float)` raises
`ValueError` on exactly those runs. -/
theorem spec_C1_counterexample :
    discountPctCell (Cell.str "1.2.3") = Except.error "could not convert string to float: 1.2.3"
    ∧ discountPctCell (Cell.str ".") = Except.error "could not convert string to float: ." := by
  constructor
  · simp only [discountPctCell, parseDecimal?,
      show extractFirstRun (astypeStr (Cell.str "1.2.3")) = some "1.2.3" from by decide,
      show parseParts? "1.2.3" = none from by decide,
      Option.map_none]
    rfl
  · simp only [discountPctCell, parseDecimal?,
      show extractFirstRun (astypeStr (Cell.str ".")) = some "." from by decide,
      show parseParts? "." = none from by decide,
      Option.map_none]
    rfl

/-- C1 amended: only a discount cell with no numeric run at all downgrades to
a missing `Discount_pct` (and the run continues); a cell whose extracted run
is not a valid float raises a conversion error that aborts the run. -/
theorem spec_C1_amended :
    (∀ c : Cell, extractFirstRun (astypeStr c) = none → discountPctCell c = Except.ok none)
    ∧ (∀ (c : Cell) (r : String), extractFirstRun (astypeStr c) = some r →
        parseDecimal? r = none →
        discountPctCell c = Except.error ("could not convert string to float: " ++ r))
    ∧ discountPctCell Cell.na = Except.ok none
    ∧ discountPctCell (Cell.str "N/A") = Except.ok none := by
  refine ⟨?_, ?_, ?_, ?_⟩
  · intro c h
    rw [discountPctCell, h]
  · intro c r h hp
    simp only [discountPctCell, h, hp]
  · simp only [discountPctCell,
      show extractFirstRun (astypeStr Cell.na) = none from by decide]
  · simp only [discountPctCell,
      show extractFirstRun (astypeStr (Cell.str "N/A")) = none from by decide]

/-- Witness for C1 (amended): a run with two dots raises the conversion
error. -/
theorem spec_C1_amended_witness :
    discountPctCell (Cell.str "7.7.7") = Except.error ("could not convert string to float: " ++ "7.7.7") :=
  spec_C1_amended.2.1 (Cell.str "7.7.7") "7.7.7" (by decide) (by decide)

theorem cleanCols_raises (t : RawTable) : ∃ msg, cleanCols t = Except.error msg := by
  rw [cleanCols]
  cases h : t.rows.mapM (fun r => discountPctCell r.discount) with
  | error e => exact ⟨e, rfl⟩
  | ok dpCol => exact ⟨"AttributeError: Series object has no attribute strip", rfl⟩

/-- C2: the claim says the cleaning/standardization stage completes without
error whenever every required column is present.  In the code, line 120 calls
`.strip()` on the `Currancy` Series itself (not `.str.strip()`), which raises
`AttributeError` unconditionally, so the stage never completes — on any input,
including the well-formed `sampleRaw`. -/
theorem spec_C2_cleaning_always_raises :
    (∀ t : RawTable, ∃ msg, cleanCols t = Except.error msg)
    ∧ cleanCols sampleRaw = Except.error "AttributeError: Series object has no attribute strip" := by
  refine ⟨cleanCols_raises, ?_⟩
  rfl

/-- C9: the claim describes the exported cleaned table, but the run aborts at
the currency-cleaning statement (line 120) before reaching the export of
lines 303–304, so no file is ever written — for any input table. -/
theorem spec_C9_export_never_reached :
    (∀ t : RawTable, ∃ msg, runPipeline t = Except.error msg)
    ∧ runPipeline sampleRaw = Except.error "AttributeError: Series object has no attribute strip" := by
  constructor
  · intro t
    obtain ⟨msg, hmsg⟩ := cleanCols_raises t
    exact ⟨msg, by rw [runPipeline, hmsg]⟩
  · rfl

/-- C6: the persisted `Discount_ratio` is always either missing (`NaN`) or a
finite value — the `np.isfinite` filter of line 145 replaces every infinity
(and `NaN`) by `NaN`, which the division at `MRP_clean = 0` with nonzero
`Discount_value` does produce. -/
theorem spec_C6_ratio_finite_or_missing :
    (∀ dv mrp : Option ℚ,
        (∃ q, discountRatioPersisted dv mrp = PFloat.val q)
        ∨ discountRatioPersisted dv mrp = PFloat.nan)
    ∧ ratioRaw (some 800) (some 0) = PFloat.inf
    ∧ discountRatioPersisted (some 800) (some 0) = PFloat.nan
    ∧ discountRatioPersisted (some 200) (some 1000) = PFloat.val (1 / 5) := by
  refine ⟨?_, ?_, ?_, ?_⟩
  · intro dv mrp
    rw [discountRatioPersisted]
    cases ratioRaw dv mrp with
    | val q => exact Or.inl ⟨q, rfl⟩
    | nan => exact Or.inr rfl
    | inf => exact Or.inr rfl
    | ninf => exact Or.inr rfl
  · rw [ratioRaw]
    norm_num
  · rw [discountRatioPersisted, ratioRaw]
    norm_num
    rfl
  · rw [discountRatioPersisted, ratioRaw]
    norm_num [normalizeFinite]

theorem premiumFlag_none_right (c : Option ℚ) : premiumFlag c none = 0 := by
  cases c <;> rfl

theorem premiumFlag_none_left (m : Option ℚ) : premiumFlag none m = 0 := by
  cases m <;> rfl

theorem premiumFlag_some_some (c x : ℚ) : premiumFlag (some c) (some x) = if c ≤ x then 1 else 0 :=
  rfl

/-- C5: `Is_premium` is 1 exactly when `MRP_clean` is non-missing and at
least the 75th percentile of the non-missing `MRP_clean` values, and 0
otherwise — in particular a missing `MRP_clean` always gives 0, never a
missing flag; and the percentile uses linear interpolation ([1,2,3,5] gives
3.5). -/
theorem spec_C5_is_premium (col : List (Option ℚ)) (i : ℕ) :
    ((isPremiumCol col)[i]? = some 1 ↔
      ∃ m q, col[i]? = some (some m) ∧ premiumCutoff col = some q ∧ q ≤ m)
    ∧ (col[i]? = some none → (isPremiumCol col)[i]? = some 0)
    ∧ premiumCutoff [some 1, some 2, some 3, some 5] = some (7 / 2) := by
  refine ⟨?_, ?_, ?_⟩
  · rw [isPremiumCol, List.getElem?_map]
    cases hcol : col[i]? with
    | none => simp
    | some mo =>
        cases mo with
        | none => simp [premiumFlag_none_right]
        | some m =>
            cases hq : premiumCutoff col with
            | none =>
                simp only [Option.map_some', premiumFlag_none_left]
                constructor
                · intro h
                  cases h
                · rintro ⟨m2, q2, hm2, hq2, hle⟩
                  cases hq2
            | some q0 =>
                simp only [Option.map_some', premiumFlag_some_some]
                by_cases hle : q0 ≤ m
                · rw [if_pos hle]
                  constructor
                  · intro _
                    exact ⟨m, q0, rfl, rfl, hle⟩
                  · intro _
                    rfl
                · rw [if_neg hle]
                  constructor
                  · intro h
                    cases h
                  · rintro ⟨m2, q2, hm2, hq2, hle2⟩
                    cases hm2
                    cases hq2
                    exact absurd hle2 hle
  · intro h
    rw [isPremiumCol, List.getElem?_map, h]
    simp [premiumFlag_none_right]
  · rw [premiumCutoff,
      show ([some 1, some 2, some 3, some 5] : List (Option ℚ)).filterMap id = [1, 2, 3, 5] from by
        decide]
    have hs : ([1, 2, 3, 5] : List ℚ).insertionSort (· ≤ ·) = [1, 2, 3, 5] := by decide
    simp only [quantile75, hs]
    norm_num [List.getD]

/-- Witness for C5: a row with missing `MRP_clean` (index 1) receives flag 0. -/
theorem spec_C5_is_premium_witness :
    (isPremiumCol [some 1, none, some 3, some 5])[1]? = some 0 :=
  (spec_C5_is_premium [some 1, none, some 3, some 5] 1).2.1 (by decide)

theorem idxmaxGo_stay (bk : String) (bv : ℚ) (post : List (String × Option ℚ))
    (hpost : ∀ p ∈ post, ∀ w, p.2 = some w → w ≤ bv) :
    idxmaxGo bk bv post = bk := by
  induction post with
  | nil => rfl
  | cons p rest ih =>
      obtain ⟨k2, o2⟩ := p
      cases o2 with
      | none =>
          rw [idxmaxGo]
          exact ih (fun q hq => hpost q (List.mem_cons_of_mem _ hq))
      | some w =>
          have hw : w ≤ bv := hpost (k2, some w) (List.mem_cons_self _ _) w rfl
          rw [idxmaxGo, if_neg (by exact not_lt.mpr hw)]
          exact ih (fun q hq => hpost q (List.mem_cons_of_mem _ hq))

theorem idxmaxGo_finds (pre : List (String × Option ℚ)) :
    ∀ (bk : String) (bv : ℚ) (k : String) (v : ℚ) (post : List (String × Option ℚ)),
      bv < v →
      (∀ p ∈ pre, ∀ w, p.2 = some w → w < v) →
      (∀ p ∈ post, ∀ w, p.2 = some w → w ≤ v) →
      idxmaxGo bk bv (pre ++ (k, some v) :: post) = k := by
  induction pre with
  | nil =>
      intro bk bv k v post hbv _ hpost
      rw [List.nil_append, idxmaxGo, if_pos hbv]
      exact idxmaxGo_stay k v post hpost
  | cons p pre2 ih =>
      intro bk bv k v post hbv hpre hpost
      obtain ⟨k2, o2⟩ := p
      cases o2 with
      | none =>
          rw [List.cons_append, idxmaxGo]
          exact ih bk bv k v post hbv (fun q hq => hpre q (List.mem_cons_of_mem _ hq)) hpost
      | some w =>
          have hw : w < v := hpre (k2, some w) (List.mem_cons_self _ _) w rfl
          rw [List.cons_append, idxmaxGo]
          by_cases hb : bv < w
          · rw [if_pos hb]
            exact ih k2 w k v post hw (fun q hq => hpre q (List.mem_cons_of_mem _ hq)) hpost
          · rw [if_neg hb]
            exact ih bk bv k v post hbv (fun q hq => hpre q (List.mem_cons_of_mem _ hq)) hpost

/-- C8: `idxmax` fails with the empty-argmax error on an empty summary (so do
the three insight queries), and when several groups tie for the maximum it
returns the first such group in table order: for any decomposition of the
series into a prefix of strictly smaller (or missing) values, a maximal
entry, and a tail of no-larger values, the label of that entry is returned. -/
theorem spec_C8_idxmax :
    idxmax [] = Except.error "attempt to get argmax of an empty sequence"
    ∧ (∀ (pre : List (String × Option ℚ)) (k : String) (v : ℚ)
        (post : List (String × Option ℚ)),
        (∀ p ∈ pre, ∀ w, p.2 = some w → w < v) →
        (∀ p ∈ pre ++ (k, some v) :: post, ∀ w, p.2 = some w → w ≤ v) →
        idxmax (pre ++ (k, some v) :: post) = Except.ok k)
    ∧ highestDiscountCategory [] = Except.error "attempt to get argmax of an empty sequence"
    ∧ premiumCategory [] = Except.error "attempt to get argmax of an empty sequence"
    ∧ topRevenueCategory [] = Except.error "attempt to get argmax of an empty sequence" := by
  refine ⟨rfl, ?_, rfl, rfl, rfl⟩
  intro pre k v post hpre hall
  have hpost : ∀ p ∈ post, ∀ w, p.2 = some w → w ≤ v := fun p hp =>
    hall p (List.mem_append.mpr (Or.inr (List.mem_cons_of_mem _ hp)))
  induction pre with
  | nil =>
      rw [List.nil_append, idxmax]
      rw [idxmaxGo_stay k v post hpost]
  | cons p pre2 ih =>
      obtain ⟨k2, o2⟩ := p
      cases o2 with
      | none =>
          rw [List.cons_append, idxmax]
          exact ih (fun q hq => hpre q (List.mem_cons_of_mem _ hq))
            (fun q hq => hall q (by
              rcases List.mem_append.mp hq with h1 | h2
              · exact List.mem_append.mpr (Or.inl (List.mem_cons_of_mem _ h1))
              · exact List.mem_append.mpr (Or.inr h2)))
      | some w =>
          have hw : w < v := hpre (k2, some w) (List.mem_cons_self _ _) w rfl
          rw [List.cons_append, idxmax]
          rw [idxmaxGo_finds pre2 k2 w k v post hw
            (fun q hq => hpre q (List.mem_cons_of_mem _ hq)) hpost]

/-- Witness for C8: with a missing first value and a tie between the second
and third groups, the first maximal group is returned. -/
theorem spec_C8_idxmax_witness :
    idxmax ([("A", none)] ++ ("B", some 5) :: [("C", some 5)]) = Except.ok "B" :=
  spec_C8_idxmax.2.1 [("A", none)] "B" 5 [("C", some 5)]
    (by intro p hp w hw; rcases List.mem_singleton.mp hp with rfl; cases hw)
    (by
      intro p hp w hw
      rcases List.mem_append.mp hp with h1 | h2
      · rcases List.mem_singleton.mp h1 with rfl
        cases hw
      · rcases List.mem_cons.mp h2 with rfl | h3
        · cases hw
          exact le_refl 5
        · rcases List.mem_singleton.mp h3 with rfl
          cases hw
          exact le_refl 5)

/-- C3 counterexample: the claim says the category summary has one row per
distinct `Category` value including a row for the missing category when such
rows are present; but `groupby("Category")` drops `NaN` keys, so a table
whose only row has a missing `Category` yields an empty summary — no
missing/"unknown" row at all. -/
theorem spec_C3_counterexample :
    cexMissingCatRow.category = none ∧ categoryAgg [cexMissingCatRow] = [] :=
  ⟨rfl, rfl⟩

/-- C3 amended: the category summary contains exactly one row per distinct
non-missing `Category` value of the cleaned table; rows with a missing
`Category` are dropped by the grouping and get no summary row. -/
theorem spec_C3_amended (rows : List CleanRow) (k : String) :
    ((categoryAgg rows).map (fun a => a.category)).Nodup
    ∧ (k ∈ (categoryAgg rows).map (fun a => a.category) ↔ ∃ r ∈ rows, r.category = some k) := by
  have hperm : List.Perm ((categoryAgg rows).map (fun a => a.category))
      (((catKeys rows).map (mkAggRow rows)).map (fun a => a.category)) :=
    (List.perm_insertionSort _ ((catKeys rows).map (mkAggRow rows))).map _
  have hkeys : ((catKeys rows).map (mkAggRow rows)).map (fun a => a.category) = catKeys rows := by
    rw [List.map_map]
    have hcomp : ((fun a : AggRow => a.category) ∘ mkAggRow rows) = fun x => x :=
      funext (fun k => rfl)
    rw [hcomp, List.map_id']
  rw [hkeys] at hperm
  refine ⟨hperm.nodup_iff.mpr (List.nodup_dedup _), ?_⟩
  rw [hperm.mem_iff, catKeys]
  exact List.mem_dedup.trans List.mem_filterMap

theorem sum_map_add (K : List String) (f g : String → ℚ) :
    (K.map (fun k => f k + g k)).sum = (K.map f).sum + (K.map g).sum := by
  induction K with
  | nil => simp
  | cons a K2 ih =>
      simp only [List.map_cons, List.sum_cons, ih]
      ring

theorem sum_map_ite_single (K : List String) (k0 : String) (x : ℚ)
    (hnd : K.Nodup) (hmem : k0 ∈ K) :
    (K.map (fun k => if k = k0 then x else 0)).sum = x := by
  induction K with
  | nil => cases hmem
  | cons a K2 ih =>
      rcases List.nodup_cons.mp hnd with ⟨hna, hnd2⟩
      by_cases hak : a = k0
      · subst hak
        simp only [List.map_cons, List.sum_cons]
        rw [if_true]
        have hz : (K2.map (fun k => if k = a then x else 0)).sum = 0 := by
          apply List.sum_eq_zero
          intro y hy
          rcases List.mem_map.mp hy with ⟨k, hk, rfl⟩
          apply if_neg
          intro h
          exact hna (h ▸ hk)
        rw [hz, add_zero]
      · have hm : k0 ∈ K2 := by
          rcases List.mem_cons.mp hmem with h | h
          · exact absurd h.symm hak
          · exact h
        simp only [List.map_cons, List.sum_cons, if_neg hak, ih hnd2 hm, zero_add]

theorem groupRevSum_cons (r : CleanRow) (t : List CleanRow) (k : String) :
    (((r :: t).filter (fun x => x.category == some k)).filterMap (fun x => x.revenue)).sum
      = (if r.category = some k then (r.revenue).getD 0 else 0)
        + ((t.filter (fun x => x.category == some k)).filterMap (fun x => x.revenue)).sum := by
  rw [List.filter_cons]
  by_cases h : r.category = some k
  · rw [if_pos (by simp [h]), if_pos h, List.filterMap_cons]
    cases hr : r.revenue with
    | none => simp [hr]
    | some v => simp [hr]
  · rw [if_neg (by simp [h]), if_neg h, zero_add]

theorem sum_groups (K : List String) (hnd : K.Nodup) (l : List CleanRow)
    (hcov : ∀ r ∈ l, ∀ k, r.category = some k → k ∈ K) :
    (K.map (fun k =>
        ((l.filter (fun x => x.category == some k)).filterMap (fun x => x.revenue)).sum)).sum
      = ((l.filter (fun r => r.category.isSome && r.revenue.isSome)).filterMap
          (fun r => r.revenue)).sum := by
  induction l with
  | nil => simp
  | cons r t ih =>
      have ht := ih (fun x hx => hcov x (List.mem_cons_of_mem r hx))
      have hmapeq : (K.map (fun k =>
          (((r :: t).filter (fun x => x.category == some k)).filterMap (fun x => x.revenue)).sum))
          = K.map (fun k =>
            (if r.category = some k then (r.revenue).getD 0 else 0)
            + ((t.filter (fun x => x.category == some k)).filterMap (fun x => x.revenue)).sum) :=
        List.map_congr_left (fun k _ => groupRevSum_cons r t k)
      rw [hmapeq, sum_map_add, ht, List.filter_cons]
      cases hc : r.category with
      | none =>
          have hz : (K.map (fun k =>
              if (none : Option String) = some k then (r.revenue).getD 0 else 0)).sum = 0 := by
            apply List.sum_eq_zero
            intro y hy
            rcases List.mem_map.mp hy with ⟨k, hk, rfl⟩
            exact if_neg (fun h => Option.noConfusion h)
          rw [hz, zero_add, if_neg (by simp)]
      | some k0 =>
          have hk0 : k0 ∈ K := hcov r (List.mem_cons_self r t) k0 hc
          have hrw : (K.map (fun k =>
              if (some k0 : Option String) = some k then (r.revenue).getD 0 else 0))
              = K.map (fun k => if k = k0 then (r.revenue).getD 0 else 0) :=
            List.map_congr_left (fun k _ =>
              if_congr (by rw [Option.some_inj, eq_comm]) rfl rfl)
          rw [hrw, sum_map_ite_single K k0 _ hnd hk0]
          cases hr : r.revenue with
          | none => simp [hr]
          | some v => simp [hr, List.filterMap_cons]

/-- C7: the sum of `Total_Revenue` over the category summary equals the sum
of `Revenue` over the product rows having both a non-missing `Revenue` and a
non-missing `Category` — the non-missing-category groups partition those
rows. -/
theorem spec_C7_revenue_partition (rows : List CleanRow) :
    ((categoryAgg rows).map (fun a => a.totalRevenue)).sum
      = ((rows.filter (fun r => r.category.isSome && r.revenue.isSome)).filterMap
          (fun r => r.revenue)).sum := by
  have hperm : List.Perm ((categoryAgg rows).map (fun a => a.totalRevenue))
      (((catKeys rows).map (mkAggRow rows)).map (fun a => a.totalRevenue)) :=
    (List.perm_insertionSort _ ((catKeys rows).map (mkAggRow rows))).map _
  rw [hperm.sum_eq, List.map_map]
  have hcomp : ((fun a : AggRow => a.totalRevenue) ∘ mkAggRow rows) = fun k =>
      ((rows.filter (fun x => x.category == some k)).filterMap (fun x => x.revenue)).sum :=
    funext (fun k => rfl)
  rw [hcomp]
  exact sum_groups (catKeys rows) (List.nodup_dedup _) rows
    (fun r hr k hk => List.mem_dedup.mpr (List.mem_filterMap.mpr ⟨r, hr, hk⟩))
